import Mathlib

/-!
Verification of the nexus-cli core pipeline: token pagination, multi-pattern
search aggregation, snapshot persistence and selection, directory-listing
HTML parsing, and batch download bookkeeping.  Each definition is a shallow
embedding of the corresponding Python function; HTTP responses and the file
system are modelled explicitly, the item dictionaries flowing through the
pipeline are kept abstract (a type parameter) where the code never inspects
them.
-/

set_option maxRecDepth 4000

namespace NexusCLI

/-- One page of a paginated response: the ordered `items` list and the
optional `continuationToken` field of the JSON body. -/
structure PageResp (α : Type) where
  items : List α
  continuationToken : Option String
deriving Repr, DecidableEq

/-- Truthiness of the token taken from the response body, as tested by
`if not continuation_token: break` in `_paginate`: an absent token and an
empty-string token both end the loop. -/
def tokenPresent : Option String → Bool
  | none => false
  | some s => !(s == "")

/-- Shallow embedding of `NexusClient._paginate`.  The endpoint is modelled
by the sequence of responses it hands to the successive GET requests; each
response is either a page or a transport error (a non-2xx status raised by
`raise_for_status`).  The second argument is the `continuationToken` entry
of the request parameters, absent on the first request and overwritten with
the token of the previous page afterwards.  The result collects the items
yielded in order, the token parameter of every request actually issued, and
the error raised, if any.  The `[]` case is unreachable for an endpoint that
keeps answering while the generator keeps asking. -/
def paginate {α ε : Type} :
    List (Except ε (PageResp α)) → Option String →
      List α × List (Option String) × Option ε
  | [], _ => ([], [], none)
  | .error e :: _, tok => ([], [tok], some e)
  | .ok p :: rest, tok =>
    if tokenPresent p.continuationToken then
      let r := paginate rest p.continuationToken
      (p.items ++ r.1, tok :: r.2.1, r.2.2)
    else
      (p.items, [tok], none)

/-- Shallow embedding of the per-pattern loop of `_search_async` /
`perform_search`: for each pattern in the order given, drain the paginator
for `{repository, name: pattern}` and append every yielded asset to the
running list.  An error surfacing from the paginator aborts the loop with
the items collected so far (partial items of the failing pattern included,
exactly as `all_assets.append` has already run when the generator raises). -/
def aggregateSearch {α ε : Type}
    (endpoint : String → List (Except ε (PageResp α))) :
    List String → List α × Option ε
  | [] => ([], none)
  | pat :: pats =>
    let r := paginate (endpoint pat) none
    match r.2.2 with
    | some e => (r.1, some e)
    | none =>
      let rest := aggregateSearch endpoint pats
      (r.1 ++ rest.1, rest.2)

/-- An asset record as consumed by `_download_async`: the loop reads only
`asset.get("path", "")` and `asset.get("downloadUrl", "")`, both defaulting
to the empty string when the key is absent. -/
structure DAsset where
  path : String
  downloadUrl : String
deriving Repr, DecidableEq

/-- The per-asset outcome recorded by the batch download loop. -/
inductive Outcome where
  | skipped
  | succeeded
  | failed (msg : String)
deriving Repr, DecidableEq

/-- Whether an outcome increments `success_count`. -/
def Outcome.isSuccess : Outcome → Bool
  | .succeeded => true
  | _ => false

/-- One iteration of the `_download_async` loop: an empty `downloadUrl`
records a skip without attempting a download; otherwise the streamed
download — modelled by the oracle `dl`, which either completes or raises a
transport or I/O error — is attempted, and a raise is caught by the
`except` block and recorded as a failure. -/
def assetOutcome (dl : DAsset → Except String Unit) (a : DAsset) : Outcome :=
  if a.downloadUrl = "" then .skipped
  else
    match dl a with
    | .ok _ => .succeeded
    | .error e => .failed e

/-- Shallow embedding of the `success_count` / `fail_count` bookkeeping of
`_download_async`: skips and caught download errors increment `fail_count`,
completed streams increment `success_count`, and the loop always runs to the
end of the asset list; the returned pair is the reported final tally. -/
def runBatch (dl : DAsset → Except String Unit) (assets : List DAsset) :
    Nat × Nat :=
  assets.foldl
    (fun c a =>
      match assetOutcome dl a with
      | .succeeded => (c.1 + 1, c.2)
      | _ => (c.1, c.2 + 1))
    (0, 0)

/-- Python `path.split("/")` on the character list: split at every slash,
keeping empty segments, so the result is never the empty list. -/
def splitSlash : List Char → List (List Char)
  | [] => [[]]
  | c :: cs =>
    if c = '/' then [] :: splitSlash cs
    else
      match splitSlash cs with
      | [] => [[c]]
      | s :: ss => (c :: s) :: ss

/-- Python `"/".join(parts)` on character lists. -/
def joinSlash : List (List Char) → List Char
  | [] => []
  | [s] => s
  | s :: ss => s ++ '/' :: joinSlash ss

/-- Shallow embedding of the destination-path derivation of
`_download_async`: split the asset path on `"/"`; join the last two segments
with `"/"` when there are at least two, otherwise keep the single last
segment, defaulting to `"unknown"` were the split ever empty (Python
`str.split` never returns an empty list, so that default is unreachable). -/
def derivePath (path : String) : String :=
  let parts := splitSlash path.data
  if parts.length ≥ 2 then
    String.mk (joinSlash (parts.drop (parts.length - 2)))
  else
    match parts.getLast? with
    | some s => String.mk s
    | none => "unknown"

/-- The snapshot store: the `tmp/` directory as an association list from
file name to the asset list recorded in that file.  The JSON text encoding
is the Python standard library (`json.dump` / `json.load` with structure
preserved), modelled as storing the decoded value itself. -/
def SnapStore (α : Type) : Type := List (String × List α)

/-- `json.dump(all_assets, f)` into a fresh `tmp/search_<ts>.json`. -/
def saveSnapshot {α : Type} (fs : SnapStore α) (name : String)
    (assets : List α) : SnapStore α :=
  (name, assets) :: fs

/-- `json.load(f)` from a named snapshot file; `none` when the file is
absent. -/
def loadSnapshot {α : Type} (fs : SnapStore α) (name : String) :
    Option (List α) :=
  List.lookup name fs

/-- Shallow embedding of the persistence tail of `_search_async`: aggregate
every pattern in order, then — only after the loop has finished without an
exception — write the snapshot file; the surrounding `try`/`except` turns an
escaped error into a message and a non-zero exit with the store untouched. -/
def searchRun {α ε : Type} (fs : SnapStore α) (name : String)
    (endpoint : String → List (Except ε (PageResp α))) (pats : List String) :
    SnapStore α × Option ε :=
  match aggregateSearch endpoint pats with
  | (_, some e) => (fs, some e)
  | (assets, none) => (saveSnapshot fs name assets, none)

/-- The double-quote character (code point 34). -/
def quoteC : Char := Char.ofNat 34

/-- Characters of the literal fragment `<a href="` that anchors each match
of the link pattern `<a href="([^"]+)">([^<]+)</a>` used by
`_parse_directory_html`. -/
def anchorPre : List Char := ("<a href=" : String).data ++ [quoteC]

/-- Drop an expected literal from the front of the input; `none` when the
input does not start with it. -/
def dropPre : List Char → List Char → Option (List Char)
  | [], cs => some cs
  | _ :: _, [] => none
  | p :: ps, c :: cs => if c = p then dropPre ps cs else none

/-- Deterministic matcher for the regex `<a href="([^"]+)">([^<]+)</a>`
anchored at the start of the input, exactly as `re.finditer` applies it:
the first group is the maximal nonempty run of non-quote characters, which
must be followed by `">`; the second is the maximal nonempty run of
characters other than `<`, which must be followed by the literal `</a>`
(no shorter run can match, because the backtracked character would have to
equal the excluded delimiter).  Returns the two capture groups and the
input remaining after the match. -/
def matchAnchor (cs : List Char) :
    Option (List Char × List Char × List Char) :=
  match dropPre anchorPre cs with
  | none => none
  | some cs1 =>
    let href := cs1.takeWhile (fun c => c ≠ quoteC)
    if href = [] then none
    else
      match cs1.drop href.length with
      | c1 :: c2 :: cs2 =>
        if c1 = quoteC ∧ c2 = '>' then
          let text := cs2.takeWhile (fun c => c ≠ '<')
          if text = [] then none
          else
            match cs2.drop text.length with
            | '<' :: '/' :: 'a' :: '>' :: rest => some (href, text, rest)
            | _ => none
        else none
      | _ => none

/-- Fuel-indexed scan of `re.finditer`: try the anchored matcher at every
position from left to right, emitting non-overlapping matches and resuming
right after each one.  The fuel only bounds the recursion — every step
consumes at least one character (`matchAnchor_length` below), so fuel equal
to the input length is always sufficient (`findMatchesFuel_of_le`). -/
def findMatchesFuel : Nat → List Char → List (List Char × List Char)
  | 0, _ => []
  | _ + 1, [] => []
  | fuel + 1, c :: cs =>
    match matchAnchor (c :: cs) with
    | some r => (r.1, r.2.1) :: findMatchesFuel fuel r.2.2
    | none => findMatchesFuel fuel cs

/-- All matches of the link pattern in the input, leftmost first. -/
def findMatches (cs : List Char) : List (List Char × List Char) :=
  findMatchesFuel cs.length cs

/-- A parsed directory entry: the `name`, `path`, `type` and `repository`
keys of the dict built by `_parse_directory_html`, with `type` one of
`"directory"` / `"file"`. -/
structure DirEntry where
  name : String
  path : String
  type : String
  repository : String
deriving Repr, DecidableEq

/-- Python `.rstrip("/")`: remove every trailing slash. -/
def rstripSlashes (cs : List Char) : List Char :=
  (cs.reverse.dropWhile (fun c => c = '/')).reverse

/-- Python `.lstrip("/")`: remove every leading slash. -/
def lstripSlashes (cs : List Char) : List Char :=
  cs.dropWhile (fun c => c = '/')

/-- Per-match processing of `_parse_directory_html`: skip the parent link
`../`, classify as directory when the href ends with `/`, strip trailing
slashes to get the bare name, keep only matches whose name is nonempty and
does not start with `?`, and build the entry path as
`f"{base_path}/{name}".lstrip("/")` when `base_path` is truthy (non-empty)
and as `name` alone otherwise. -/
def entryOfMatch (repository basePath : String)
    (m : List Char × List Char) : Option DirEntry :=
  if m.1 = ("../" : String).data then none
  else
    let name := rstripSlashes m.1
    if name ≠ [] ∧ name.head? ≠ some '?' then
      some
        { name := String.mk name
          path :=
            if basePath ≠ "" then
              String.mk (lstripSlashes (basePath.data ++ '/' :: name))
            else String.mk name
          type := if m.1.getLast? = some '/' then "directory" else "file"
          repository := repository }
    else none

/-- Shallow embedding of `_parse_directory_html`: every match of the link
pattern, in order, run through the per-match processing. -/
def parseDirectoryHtml (html : String) (repository basePath : String) :
    List DirEntry :=
  (findMatches html.data).filterMap (entryOfMatch repository basePath)

/-- The per-match rule exactly as claim C7 words it: one entry per anchor,
excluding only the parent-directory link and query pseudo-links (names
beginning with `?`), directory iff the href ends with `/`, the name the
href with the trailing slash material stripped, and the path
`base_path + "/" + name` (or just `name` when `base_path` is empty). -/
def entryOfMatchClaim (repository basePath : String)
    (m : List Char × List Char) : Option DirEntry :=
  if m.1 = ("../" : String).data then none
  else
    let name := rstripSlashes m.1
    if name.head? = some '?' then none
    else
      some
        { name := String.mk name
          path :=
            if basePath = "" then String.mk name
            else basePath ++ "/" ++ String.mk name
          type := if m.1.getLast? = some '/' then "directory" else "file"
          repository := repository }

/-- The per-match rule as amended for C7: like the claim's rule, but
additionally skipping matches whose stripped name is empty, and stripping
leading slashes from the combined `base_path + "/" + name` path. -/
def entryOfMatchAmended (repository basePath : String)
    (m : List Char × List Char) : Option DirEntry :=
  if m.1 = ("../" : String).data then none
  else
    let name := rstripSlashes m.1
    if name = [] then none
    else if name.head? = some '?' then none
    else
      some
        { name := String.mk name
          path :=
            if basePath = "" then String.mk name
            else
              String.mk (lstripSlashes ((basePath ++ "/" ++ String.mk name).data))
          type := if m.1.getLast? = some '/' then "directory" else "file"
          repository := repository }

/-- One anchor tag `<a href="H">T</a>` as a character list. -/
def mkAnchor (href text : List Char) : List Char :=
  anchorPre ++ href ++ quoteC :: '>' :: text ++ ("</a>" : String).data

/-- List-level `startswith`. -/
def startsWithL : List Char → List Char → Bool
  | [], _ => true
  | _ :: _, [] => false
  | a :: as, b :: bs => a = b && startsWithL as bs

/-- Python `needle in hay` on strings: substring containment. -/
def containsSub (needle : List Char) : List Char → Bool
  | [] => startsWithL needle []
  | c :: cs => startsWithL needle (c :: cs) || containsSub needle cs

/-- Substring test on `String`, hay first. -/
def strContains (hay needle : String) : Bool :=
  containsSub needle.data hay.data

/-- Python `path.strip("/")`. -/
def stripSlashes (s : String) : String :=
  String.mk (rstripSlashes (lstripSlashes s.data))

/-- An HTTP response to the browse GET, as far as `list_directory` inspects
it: status code, `content-type` header, body text for the HTML branch and —
JSON decoding being the `httpx` library — the decoded payload for the JSON
branch. -/
structure HttpResponse where
  status : Nat
  contentType : String
  htmlText : String
  jsonEntries : List DirEntry
deriving Repr, DecidableEq

/-- `httpx`'s `response.raise_for_status()` raises `HTTPStatusError` unless
the (post-redirect) status is a 2xx success. -/
def isSuccessStatus (s : Nat) : Bool := 200 ≤ s && s ≤ 299

/-- Result of `list_directory`: an entry list, or the re-raised
`HTTPStatusError` — the spec's `TransportError` — carrying the status. -/
inductive ListDirResult where
  | ok (entries : List DirEntry)
  | httpError (status : Nat)
deriving Repr, DecidableEq

/-- Shallow embedding of `NexusClient.list_directory` applied to the browse
GET's response: a non-2xx status raises, and the handler converts a 404
into an empty listing and re-raises anything else; on success the branch is
chosen by substring tests on the `content-type` header — JSON is returned
decoded, HTML is scraped relative to the stripped path, and any other
content kind yields the empty list. -/
def listDirectory (repository path : String) (resp : HttpResponse) :
    ListDirResult :=
  if isSuccessStatus resp.status then
    if strContains resp.contentType "application/json" then
      .ok resp.jsonEntries
    else if strContains resp.contentType "text/html" then
      .ok (parseDirectoryHtml resp.htmlText repository (stripSlashes path))
    else .ok []
  else if resp.status = 404 then .ok []
  else .httpError resp.status

/-- Decimal digit character. -/
def digitChar : Nat → Char
  | 0 => '0'
  | 1 => '1'
  | 2 => '2'
  | 3 => '3'
  | 4 => '4'
  | 5 => '5'
  | 6 => '6'
  | 7 => '7'
  | 8 => '8'
  | _ => '9'

/-- Fixed-width, zero-padded, big-endian decimal rendering with `w` digits.
`strftime("%Y%m%d%H%M%S")` renders the run's start time as such a 14-digit
string, each field zero-padded. -/
def natDigits : Nat → Nat → List Char
  | 0, _ => []
  | w + 1, n => digitChar (n / 10 ^ w) :: natDigits w (n % 10 ^ w)

/-- The 14-digit `YYYYMMDDHHMMSS` string of a run's start time, the start
time being modelled as the corresponding 14-digit number (later calendar
time = larger number). -/
def timestampStr (ts : Nat) : String := String.mk (natDigits 14 ts)

/-- Snapshot file name `search_<YYYYMMDDHHMMSS>.json`. -/
def snapshotName (ts : Nat) : String :=
  "search_" ++ timestampStr ts ++ ".json"

/-- Lexicographic `≤` on character lists, comparing code points — Python's
string comparison. -/
def listLexLe : List Char → List Char → Bool
  | [], _ => true
  | _ :: _, [] => false
  | a :: as, b :: bs =>
    if a < b then true else if b < a then false else listLexLe as bs

/-- Python's `<=` on strings: code-point lexicographic comparison. -/
def strLe (a b : String) : Bool := listLexLe a.data b.data

/-- Shallow embedding of `sorted(search_files)[-1]` (used both by
`_download_async` and by `list.py`): sort the matching file names — Python
sorts strings lexicographically by code point — and take the last one;
`none` only for an empty store. -/
def latestFile (files : List String) : Option String :=
  (files.mergeSort (fun a b => strLe a b)).getLast?

/-- A download run as the destination-root logic of `_download_async`
observes it: the `--output-dir` option, the run's start timestamp, and the
asset list it processes. -/
structure DownloadRun where
  outputDir : String
  timestamp : Nat
  assets : List DAsset
deriving Repr, DecidableEq

/-- Destination root `Path(output_dir) / f"artifacts_{timestamp}"` of
`_download_async`; it is created with `mkdir(parents=True, exist_ok=True)`,
which does not object to an already-existing directory. -/
def destRoot (r : DownloadRun) : String :=
  r.outputDir ++ "/artifacts_" ++ timestampStr r.timestamp

end NexusCLI

namespace NexusCLI

/-- Helper used by the C1 theorem: the generalized pagination run starting
from an arbitrary request token. -/
theorem paginate_run {α ε : Type} (init : List (PageResp α)) (last : PageResp α)
    (hinit : ∀ p ∈ init, tokenPresent p.continuationToken = true)
    (hlast : tokenPresent last.continuationToken = false) (tok : Option String) :
    paginate (ε := ε) ((init ++ [last]).map .ok) tok =
      ((init ++ [last]).flatMap PageResp.items,
        tok :: init.map PageResp.continuationToken, none) := by
  induction init generalizing tok with
  | nil => simp [paginate, hlast]
  | cons p ps ih =>
    have hp : tokenPresent p.continuationToken = true := hinit p (by simp)
    have ihs : ∀ q ∈ ps, tokenPresent q.continuationToken = true := by
      intro q hq; exact hinit q (by simp [hq])
    have h2 := ih ihs p.continuationToken
    simp only [List.map_append, List.map_cons, List.map_nil] at h2
    simp [paginate, hp, h2]

/-- C1: against an endpoint answering with `N` token-carrying pages followed
by one token-free page, `_paginate` yields exactly the concatenation of every
page's items in page-then-within-page order, issues exactly `N + 1` requests
(the first with no token, request `i + 1` with the token returned by page
`i`), finishes without error, and with `N = 0` issues exactly one request. -/
theorem paginate_yields_all_pages {α ε : Type}
    (init : List (PageResp α)) (last : PageResp α)
    (hinit : ∀ p ∈ init, tokenPresent p.continuationToken = true)
    (hlast : tokenPresent last.continuationToken = false) :
    paginate (ε := ε) ((init ++ [last]).map .ok) none =
      ((init ++ [last]).flatMap PageResp.items,
        none :: init.map PageResp.continuationToken, none) ∧
    (paginate (ε := ε) ((init ++ [last]).map .ok) none).2.1.length =
      init.length + 1 := by
  have h := paginate_run (ε := ε) init last hinit hlast none
  exact ⟨h, by rw [h]; simp⟩

/-- Witness for C1: two pages of items `[1, 2]` then `[3]` linked by token
`"t1"` give the sequence `[1, 2, 3]` with exactly two requests. -/
theorem paginate_yields_all_pages_witness :
    paginate (ε := Unit)
        [Except.ok (⟨[1, 2], some "t1"⟩ : PageResp Nat), Except.ok ⟨[3], none⟩]
        none =
      ([1, 2, 3], [none, some "t1"], none) ∧
    (paginate (ε := Unit)
        [Except.ok (⟨[1, 2], some "t1"⟩ : PageResp Nat), Except.ok ⟨[3], none⟩]
        none).2.1.length = 2 := by
  have h := paginate_yields_all_pages (ε := Unit)
    [(⟨[1, 2], some "t1"⟩ : PageResp Nat)] ⟨[3], none⟩
    (by decide) (by decide)
  simpa using h

/-- Helper for C2: with error-free pagination for every pattern, the
aggregation returns the in-order concatenation of the per-pattern paginator
outputs and reports no error. -/
theorem aggregateSearch_eq_flatMap {α ε : Type}
    (endpoint : String → List (Except ε (PageResp α))) (pats : List String)
    (h : ∀ p ∈ pats, (paginate (endpoint p) none).2.2 = none) :
    aggregateSearch endpoint pats =
      (pats.flatMap fun p => (paginate (endpoint p) none).1, none) := by
  induction pats with
  | nil => simp [aggregateSearch]
  | cons p ps ih =>
    have hp := h p (by simp)
    have ihs := ih (fun q hq => h q (by simp [hq]))
    simp [aggregateSearch, hp, ihs]

/-- C2: the merged search result is exactly the concatenation, in the given
pattern order, of the per-pattern paginator outputs (order preserved within
each pattern, no deduplication); in particular for patterns `[a, b]` matching
2 and 3 items the merged result has length 5 with `a`'s items first. -/
theorem aggregateSearch_concat {α ε : Type}
    (endpoint : String → List (Except ε (PageResp α))) (pats : List String)
    (h : ∀ p ∈ pats, (paginate (endpoint p) none).2.2 = none) :
    aggregateSearch endpoint pats =
      (pats.flatMap fun p => (paginate (endpoint p) none).1, none) ∧
    (∀ a b, pats = [a, b] →
      (paginate (endpoint a) none).1.length = 2 →
      (paginate (endpoint b) none).1.length = 3 →
      (aggregateSearch endpoint pats).1 =
        (paginate (endpoint a) none).1 ++ (paginate (endpoint b) none).1 ∧
      (aggregateSearch endpoint pats).1.length = 5) := by
  refine ⟨aggregateSearch_eq_flatMap endpoint pats h, ?_⟩
  rintro a b rfl ha hb
  have h2 := aggregateSearch_eq_flatMap endpoint [a, b] h
  rw [h2]
  simp [ha, hb]

/-- Witness for C2: patterns `"A"` (matching `[1, 2]`) and `"B"` (matching
`[1, 3, 4]`, overlapping on item `1`) merge to `[1, 2, 1, 3, 4]` of length 5
with the duplicate preserved. -/
theorem aggregateSearch_concat_witness :
    aggregateSearch
        (fun pat => if pat = "A"
          then [(Except.ok ⟨[1, 2], none⟩ : Except Unit (PageResp Nat))]
          else [(Except.ok ⟨[1, 3, 4], none⟩ : Except Unit (PageResp Nat))])
        ["A", "B"] = (([1, 2, 1, 3, 4] : List Nat), (none : Option Unit)) := by
  have h := aggregateSearch_concat
    (fun pat => if pat = "A"
      then [(Except.ok ⟨[1, 2], none⟩ : Except Unit (PageResp Nat))]
      else [(Except.ok ⟨[1, 3, 4], none⟩ : Except Unit (PageResp Nat))])
    ["A", "B"] (by decide)
  simpa using h.1

/-- Helper for C3: the counter fold equals the outcome counts. -/
theorem runBatch_counts (dl : DAsset → Except String Unit)
    (assets : List DAsset) :
    runBatch dl assets =
      ((assets.map (assetOutcome dl)).countP Outcome.isSuccess,
        (assets.map (assetOutcome dl)).countP fun o => !o.isSuccess) := by
  suffices h : ∀ c : Nat × Nat,
      assets.foldl
        (fun c a =>
          match assetOutcome dl a with
          | .succeeded => (c.1 + 1, c.2)
          | _ => (c.1, c.2 + 1)) c =
      (c.1 + (assets.map (assetOutcome dl)).countP Outcome.isSuccess,
        c.2 + (assets.map (assetOutcome dl)).countP fun o => !o.isSuccess) by
    simpa [runBatch] using h (0, 0)
  induction assets with
  | nil => simp
  | cons a rest ih =>
    intro c
    cases ho : assetOutcome dl a <;>
      simp [ho, ih, Outcome.isSuccess, List.countP_cons] <;> omega

/-- C3: every asset receives exactly one outcome, in order — a skip when the
locator is empty, a failure carrying the error when the download raises, a
success when the stream completes; one asset's failure never aborts the
batch (the outcome list covers the whole asset list), the counters count
exactly the successful and the non-successful outcomes (skips counted as
failures), and success count plus failure count equals the number of assets;
the returned pair is the reported final tally. -/
theorem runBatch_outcomes (dl : DAsset → Except String Unit)
    (assets : List DAsset) :
    (assets.map (assetOutcome dl)).length = assets.length ∧
    (runBatch dl assets).1 =
      (assets.map (assetOutcome dl)).countP Outcome.isSuccess ∧
    (runBatch dl assets).2 =
      ((assets.map (assetOutcome dl)).countP fun o => !o.isSuccess) ∧
    (runBatch dl assets).1 + (runBatch dl assets).2 = assets.length ∧
    (∀ a ∈ assets,
      (a.downloadUrl = "" → assetOutcome dl a = .skipped) ∧
      (∀ e, a.downloadUrl ≠ "" → dl a = .error e →
        assetOutcome dl a = .failed e) ∧
      (a.downloadUrl ≠ "" → dl a = .ok () →
        assetOutcome dl a = .succeeded)) := by
  have hc := runBatch_counts dl assets
  refine ⟨by simp, by rw [hc], by rw [hc], ?_, ?_⟩
  · rw [hc]
    have hsum := List.length_eq_countP_add_countP
      (l := assets.map (assetOutcome dl)) (p := Outcome.isSuccess)
    have hf : (fun a : Outcome => decide ¬Outcome.isSuccess a = true)
        = fun o : Outcome => !o.isSuccess := by
      funext o; simp
    rw [hf] at hsum
    simp only [List.length_map] at hsum
    omega
  · intro a _
    refine ⟨fun h => by simp [assetOutcome, h], ?_, ?_⟩
    · intro e hu he; simp [assetOutcome, hu, he]
    · intro hu hok; simp [assetOutcome, hu, hok]

/-- Witness for C3: three assets — one with no locator, one whose download
raises, one that streams — give the tally `(1, 2)`. -/
theorem runBatch_outcomes_witness :
    runBatch (fun a => if a.path = "bad" then .error "boom" else .ok ())
      [⟨"a/x", ""⟩, ⟨"bad", "u1"⟩, ⟨"c/z", "u2"⟩] = (1, 2) := by
  have h := runBatch_outcomes
    (fun a => if a.path = "bad" then .error "boom" else .ok ())
    [⟨"a/x", ""⟩, ⟨"bad", "u1"⟩, ⟨"c/z", "u2"⟩]
  rw [Prod.ext_iff]
  exact ⟨by rw [h.2.1]; decide, by rw [h.2.2.1]; decide⟩

/-- C4: the destination path is the last two slash-separated segments of the
asset path joined by `"/"` whenever the split has at least two segments, and
the single segment itself otherwise; in particular
`"P/build/component-a/file.tar.gz"` maps to `"component-a/file.tar.gz"` and
`"onlyname"` maps to `"onlyname"`. -/
theorem derivePath_last_two (path : String) :
    (∀ xs a b, splitSlash path.data = xs ++ [a, b] →
      derivePath path = String.mk (a ++ '/' :: b)) ∧
    (∀ a, splitSlash path.data = [a] → derivePath path = String.mk a) ∧
    derivePath "P/build/component-a/file.tar.gz" = "component-a/file.tar.gz" ∧
    derivePath "onlyname" = "onlyname" := by
  refine ⟨?_, ?_, by decide, by decide⟩
  · intro xs a b h
    have hlen : (splitSlash path.data).length = xs.length + 2 := by simp [h]
    have hge : (splitSlash path.data).length ≥ 2 := by omega
    have hdrop : (splitSlash path.data).drop ((splitSlash path.data).length - 2)
        = [a, b] := by
      rw [h]
      have h2 : (xs ++ [a, b]).length - 2 = xs.length := by simp
      rw [h2]
      simp
    simp [derivePath, hge, hdrop, joinSlash]
  · intro a h
    simp [derivePath, h, joinSlash]

/-- Witness for C4: the path `"a/b"` splits into two segments and maps to
`"a/b"` as last-two-joined. -/
theorem derivePath_last_two_witness :
    splitSlash ("a/b" : String).data = [['a'], ['b']] ∧
    derivePath "a/b" = String.mk (['a'] ++ '/' :: ['b']) :=
  ⟨by decide, (derivePath_last_two "a/b").1 [] ['a'] ['b'] (by decide)⟩

/-- C6: loading a snapshot right after saving it returns exactly the asset
sequence that was written, field-for-field and in the same order. -/
theorem loadSnapshot_saveSnapshot {α : Type} (fs : SnapStore α)
    (name : String) (assets : List α) :
    loadSnapshot (saveSnapshot fs name assets) name = some assets := by
  simp [loadSnapshot, saveSnapshot, List.lookup]

/-- Helper for C10: if some pattern's pagination raises, the aggregation
reports an error. -/
theorem aggregateSearch_err_isSome {α ε : Type}
    (endpoint : String → List (Except ε (PageResp α))) (pats : List String)
    (p : String) (hp : p ∈ pats)
    (he : (paginate (endpoint p) none).2.2.isSome = true) :
    (aggregateSearch endpoint pats).2.isSome = true := by
  induction pats with
  | nil => cases hp
  | cons q qs ih =>
    rcases List.mem_cons.mp hp with rfl | hmem
    · cases hq : (paginate (endpoint p) none).2.2 with
      | some e => simp [aggregateSearch, hq]
      | none => rw [hq] at he; simp at he
    · cases hq : (paginate (endpoint q) none).2.2 with
      | some e => simp [aggregateSearch, hq]
      | none => simpa [aggregateSearch, hq] using ih hmem

/-- C10: when any pattern's pagination raises an error, the search run
leaves the snapshot store exactly as it was (no file is written) and
reports the failure; the snapshot is persisted only after every pattern has
aggregated successfully. -/
theorem searchRun_no_partial_snapshot {α ε : Type} (fs : SnapStore α)
    (name : String) (endpoint : String → List (Except ε (PageResp α)))
    (pats : List String) (p : String) (hp : p ∈ pats)
    (he : (paginate (endpoint p) none).2.2.isSome = true) :
    (searchRun fs name endpoint pats).1 = fs ∧
    (searchRun fs name endpoint pats).2.isSome = true := by
  have h := aggregateSearch_err_isSome endpoint pats p hp he
  rcases ho : aggregateSearch endpoint pats with ⟨assets, err⟩
  rw [ho] at h
  cases err with
  | some e => constructor <;> simp [searchRun, ho]
  | none => simp at h

/-- Witness for C10: a single pattern whose first page request fails leaves
the pre-existing store `[("old", [7])]` unchanged. -/
theorem searchRun_no_partial_snapshot_witness :
    (searchRun [("old", [7])] "search_20250101010101.json"
      (fun _ => [(Except.error "HTTP 500" : Except String (PageResp Nat))])
      ["A"]).1 = [("old", [7])] ∧
    (searchRun [("old", [7])] "search_20250101010101.json"
      (fun _ => [(Except.error "HTTP 500" : Except String (PageResp Nat))])
      ["A"]).2.isSome = true :=
  searchRun_no_partial_snapshot [("old", [7])] "search_20250101010101.json"
    (fun _ => [(Except.error "HTTP 500" : Except String (PageResp Nat))])
    ["A"] "A" (by decide) (by decide)

/-- Consuming a literal shortens the input by the literal's length. -/
theorem dropPre_length :
    ∀ {p cs r : List Char}, dropPre p cs = some r →
      r.length + p.length = cs.length := by
  intro p
  induction p with
  | nil =>
    intro cs r h
    cases h
    simp
  | cons x xs ih =>
    intro cs r h
    cases cs with
    | nil => cases h
    | cons c cs' =>
      simp only [dropPre] at h
      split at h
      · have := ih h
        simp only [List.length_cons]
        omega
      · cases h

/-- A successful anchored match consumes at least one character of the
input. -/
theorem matchAnchor_length {cs h t rest : List Char}
    (hm : matchAnchor cs = some (h, t, rest)) : rest.length < cs.length := by
  simp only [matchAnchor] at hm
  split at hm
  · cases hm
  next cs1 heq =>
    have h1 : cs1.length + anchorPre.length = cs.length := dropPre_length heq
    split at hm
    · cases hm
    next hhref =>
      split at hm
      case h_2 => cases hm
      case h_1 c1 c2 cs2 heq2 =>
        have h2 : cs2.length + 2 ≤ cs1.length := by
          have := congrArg List.length heq2
          simp only [List.length_drop, List.length_cons] at this
          omega
        split at hm
        case isFalse => cases hm
        case isTrue =>
          split at hm
          · cases hm
          next htext =>
            split at hm
            case h_2 => cases hm
            case h_1 rest' heq3 =>
              cases hm
              have h3 : rest.length + 4 ≤ cs2.length := by
                have := congrArg List.length heq3
                simp only [List.length_drop, List.length_cons] at this
                omega
              omega

/-- Any fuel at least the input length computes the full finditer scan. -/
theorem findMatchesFuel_of_le :
    ∀ (fuel : Nat) (cs : List Char), cs.length ≤ fuel →
      findMatchesFuel fuel cs = findMatchesFuel cs.length cs := by
  intro fuel
  induction fuel using Nat.strong_induction_on with
  | _ fuel ih =>
    intro cs hle
    match fuel, cs with
    | 0, [] => rfl
    | f + 1, [] => rfl
    | f + 1, c :: cs' =>
      simp only [List.length_cons] at hle ⊢
      simp only [findMatchesFuel]
      cases hm : matchAnchor (c :: cs') with
      | some r =>
        have hrest : r.2.2.length < cs'.length + 1 := by
          rcases r with ⟨rh, rt, rrest⟩
          simpa using matchAnchor_length hm
        have e1 := ih f (by omega) r.2.2 (by omega)
        have e2 := ih cs'.length (by omega) r.2.2 (by omega)
        show (r.1, r.2.1) :: findMatchesFuel f r.2.2 =
          (r.1, r.2.1) :: findMatchesFuel cs'.length r.2.2
        rw [e1, e2]
      | none =>
        show findMatchesFuel f cs' = findMatchesFuel cs'.length cs'
        exact ih f (by omega) cs' (by omega)

/-- Counterexample for C7: two divergences from the claim's rule.  On
the anchor `<a href="/">/</a>`, whose trailing-slash-stripped name is
empty, the code produces no entry while the rule exactly as the claim
words it (excluding only the parent link and `?`-names) produces one; and
on `<a href="sub/">sub/</a>` with base path `/x` the code strips the
leading slash from the combined path (`x/sub`) while the claim's
`base_path + "/" + name` keeps it (`/x/sub`). -/
theorem parseDirectoryHtml_claim_counterexample :
    (parseDirectoryHtml (String.mk (mkAnchor ['/'] ['/'])) "r" "x" = [] ∧
      (findMatches (mkAnchor ['/'] ['/'])).filterMap
        (entryOfMatchClaim "r" "x") = [⟨"", "x/", "directory", "r"⟩] ∧
      parseDirectoryHtml (String.mk (mkAnchor ['/'] ['/'])) "r" "x" ≠
        (findMatches (mkAnchor ['/'] ['/'])).filterMap
          (entryOfMatchClaim "r" "x")) ∧
    (parseDirectoryHtml
        (String.mk (mkAnchor ("sub/" : String).data ("sub/" : String).data))
        "r" "/x" = [⟨"sub", "x/sub", "directory", "r"⟩] ∧
      (findMatches
          (mkAnchor ("sub/" : String).data ("sub/" : String).data)).filterMap
        (entryOfMatchClaim "r" "/x") = [⟨"sub", "/x/sub", "directory", "r"⟩] ∧
      parseDirectoryHtml
          (String.mk (mkAnchor ("sub/" : String).data ("sub/" : String).data))
          "r" "/x" ≠
        (findMatches
            (mkAnchor ("sub/" : String).data ("sub/" : String).data)).filterMap
          (entryOfMatchClaim "r" "/x")) := by
  refine ⟨⟨?_, ?_, ?_⟩, ⟨?_, ?_, ?_⟩⟩ <;> decide

/-- Helper for C7: the code's per-match rule coincides everywhere with the
amended claim rule. -/
theorem entryOfMatch_eq_amended (repository basePath : String)
    (m : List Char × List Char) :
    entryOfMatch repository basePath m =
      entryOfMatchAmended repository basePath m := by
  unfold entryOfMatch entryOfMatchAmended
  by_cases h1 : m.1 = ("../" : String).data
  · simp [h1]
  · by_cases h2 : rstripSlashes m.1 = []
    · simp [h1, h2]
    · by_cases h3 : (rstripSlashes m.1).head? = some '?'
      · simp [h1, h2, h3]
      · by_cases h4 : basePath = ""
        · simp [h1, h2, h3, h4]
        · simp [h1, h2, h3, h4]

/-- C7 (amended): the HTML branch produces one entry per match of the
literal anchor pattern, in match order, processed by the amended per-anchor
rule — the parent link `../` is skipped, matches whose trailing-slash-
stripped name is empty are skipped, names beginning with `?` are skipped,
an entry is a directory iff its href ends with `/`, and its path is
`base_path + "/" + name` with leading slashes stripped when `base_path` is
non-empty, else `name` alone; on the claim's example with base path `"x"`
exactly the entries `(sub, x/sub, directory)` and `(f.txt, x/f.txt, file)`
are produced. -/
theorem parseDirectoryHtml_amended (html repository basePath : String) :
    parseDirectoryHtml html repository basePath =
      (findMatches html.data).filterMap
        (entryOfMatchAmended repository basePath) ∧
    parseDirectoryHtml
        (String.mk (mkAnchor ("../" : String).data ("../" : String).data ++
          (mkAnchor ("sub/" : String).data ("sub/" : String).data ++
            mkAnchor ("f.txt" : String).data ("f.txt" : String).data)))
        "r" "x" =
      [⟨"sub", "x/sub", "directory", "r"⟩,
        ⟨"f.txt", "x/f.txt", "file", "r"⟩] := by
  constructor
  · unfold parseDirectoryHtml
    exact List.filterMap_congr
      (fun m _ => entryOfMatch_eq_amended repository basePath m)
  · decide

/-- C8: a 404 browse response yields an empty result set without raising;
any other non-2xx status fails with the transport error carrying the
status; and a success response whose content kind is neither JSON nor HTML
yields an empty result set. -/
theorem listDirectory_status (repository path : String)
    (resp : HttpResponse) :
    (resp.status = 404 → listDirectory repository path resp = .ok []) ∧
    (isSuccessStatus resp.status = false → resp.status ≠ 404 →
      listDirectory repository path resp = .httpError resp.status) ∧
    (isSuccessStatus resp.status = true →
      strContains resp.contentType "application/json" = false →
      strContains resp.contentType "text/html" = false →
      listDirectory repository path resp = .ok []) := by
  refine ⟨?_, ?_, ?_⟩
  · intro h
    simp [listDirectory, h, isSuccessStatus]
  · intro hns h404
    simp [listDirectory, hns, h404]
  · intro hs hj hh
    simp [listDirectory, hs, hj, hh]

/-- Witness for C8: a 404 response, a 500 response, and a 200 response of
content type `text/plain` hit the three branches. -/
theorem listDirectory_status_witness :
    listDirectory "repo" "a/b" ⟨404, "text/html", "", []⟩ = .ok [] ∧
    listDirectory "repo" "a/b" ⟨500, "text/html", "", []⟩ = .httpError 500 ∧
    listDirectory "repo" "a/b" ⟨200, "text/plain", "", []⟩ = .ok [] :=
  ⟨(listDirectory_status "repo" "a/b" ⟨404, "text/html", "", []⟩).1 rfl,
    (listDirectory_status "repo" "a/b" ⟨500, "text/html", "", []⟩).2.1
      (by decide) (by decide),
    (listDirectory_status "repo" "a/b" ⟨200, "text/plain", "", []⟩).2.2
      (by decide) (by decide) (by decide)⟩

/-- Strict comparison of digit characters matches numeric comparison. -/
theorem digitChar_lt_iff {a b : Nat} (ha : a < 10) (hb : b < 10) :
    digitChar a < digitChar b ↔ a < b := by
  interval_cases a <;> interval_cases b <;> decide

/-- Digit characters of distinct digits are distinct. -/
theorem digitChar_inj {a b : Nat} (ha : a < 10) (hb : b < 10)
    (h : digitChar a = digitChar b) : a = b := by
  interval_cases a <;> interval_cases b <;> first
    | rfl
    | exact absurd h (by decide)

/-- The fixed-width rendering has exactly `w` characters. -/
theorem natDigits_length : ∀ (w n : Nat), (natDigits w n).length = w := by
  intro w
  induction w with
  | zero => intro n; rfl
  | succ w ih => intro n; simp [natDigits, ih]

/-- Equal fixed-width renderings of bounded numbers force equal numbers. -/
theorem natDigits_inj : ∀ {w m n : Nat}, m < 10 ^ w → n < 10 ^ w →
    natDigits w m = natDigits w n → m = n := by
  intro w
  induction w with
  | zero =>
    intro m n hm hn _
    simp only [pow_zero, Nat.lt_one_iff] at hm hn
    omega
  | succ w ih =>
    intro m n hm hn h
    have hpow : (0 : Nat) < 10 ^ w := pow_pos (by norm_num) w
    have hdm : m / 10 ^ w < 10 := by
      apply Nat.div_lt_of_lt_mul
      calc m < 10 ^ (w + 1) := hm
        _ = 10 ^ w * 10 := by rw [pow_succ]
    have hdn : n / 10 ^ w < 10 := by
      apply Nat.div_lt_of_lt_mul
      calc n < 10 ^ (w + 1) := hn
        _ = 10 ^ w * 10 := by rw [pow_succ]
    simp only [natDigits, List.cons.injEq] at h
    have hde : m / 10 ^ w = n / 10 ^ w := digitChar_inj hdm hdn h.1
    have hmod : m % 10 ^ w = n % 10 ^ w :=
      ih (Nat.mod_lt _ hpow) (Nat.mod_lt _ hpow) h.2
    have h1 := Nat.div_add_mod m (10 ^ w)
    have h2 := Nat.div_add_mod n (10 ^ w)
    rw [← hde] at h2
    omega

/-- The list comparison is reflexive. -/
theorem listLexLe_refl : ∀ (a : List Char), listLexLe a a = true := by
  intro a
  induction a with
  | nil => rfl
  | cons x xs ih =>
    simp only [listLexLe, if_neg (lt_irrefl x)]
    exact ih

/-- The list comparison is transitive. -/
theorem listLexLe_trans : ∀ (a b c : List Char), listLexLe a b = true →
    listLexLe b c = true → listLexLe a c = true := by
  intro a
  induction a with
  | nil => intro b c _ _; rfl
  | cons x xs ih =>
    intro b c h1 h2
    cases b with
    | nil => simp [listLexLe] at h1
    | cons y ys =>
      cases c with
      | nil => simp [listLexLe] at h2
      | cons z zs =>
        simp only [listLexLe] at h1 h2 ⊢
        rcases lt_trichotomy x y with hxy | hxy | hxy
        · rcases lt_trichotomy y z with hyz | hyz | hyz
          · rw [if_pos (lt_trans hxy hyz)]
          · subst hyz; rw [if_pos hxy]
          · rw [if_neg (lt_asymm hyz), if_pos hyz] at h2; simp at h2
        · subst hxy
          rcases lt_trichotomy x z with hxz | hxz | hxz
          · rw [if_pos hxz]
          · subst hxz
            rw [if_neg (lt_irrefl x), if_neg (lt_irrefl x)] at h1 h2 ⊢
            exact ih ys zs h1 h2
          · rw [if_neg (lt_asymm hxz), if_pos hxz] at h2; simp at h2
        · rw [if_neg (lt_asymm hxy), if_pos hxy] at h1; simp at h1

/-- The list comparison is total. -/
theorem listLexLe_total : ∀ (a b : List Char),
    listLexLe a b = true ∨ listLexLe b a = true := by
  intro a
  induction a with
  | nil => intro b; left; rfl
  | cons x xs ih =>
    intro b
    cases b with
    | nil => right; rfl
    | cons y ys =>
      simp only [listLexLe]
      rcases lt_trichotomy x y with h | h | h
      · left; rw [if_pos h]
      · subst h
        simp only [if_neg (lt_irrefl x)]
        exact ih ys
      · right; rw [if_pos h]

/-- The list comparison is antisymmetric. -/
theorem listLexLe_antisymm : ∀ (a b : List Char), listLexLe a b = true →
    listLexLe b a = true → a = b := by
  intro a
  induction a with
  | nil =>
    intro b h1 h2
    cases b with
    | nil => rfl
    | cons y ys => simp [listLexLe] at h2
  | cons x xs ih =>
    intro b h1 h2
    cases b with
    | nil => simp [listLexLe] at h1
    | cons y ys =>
      simp only [listLexLe] at h1 h2
      rcases lt_trichotomy x y with h | h | h
      · rw [if_neg (lt_asymm h), if_pos h] at h2; simp at h2
      · subst h
        rw [if_neg (lt_irrefl x), if_neg (lt_irrefl x)] at h1 h2
        rw [ih ys h1 h2]
      · rw [if_neg (lt_asymm h), if_pos h] at h1; simp at h1

/-- A common prefix does not affect the comparison. -/
theorem listLexLe_append_left : ∀ (p a b : List Char),
    listLexLe (p ++ a) (p ++ b) = listLexLe a b := by
  intro p
  induction p with
  | nil => intro a b; rfl
  | cons c cs ih =>
    intro a b
    simp only [List.cons_append, listLexLe, if_neg (lt_irrefl c)]
    exact ih a b

/-- A common suffix preserves the comparison of equal-length lists. -/
theorem listLexLe_append_right : ∀ (a b s : List Char),
    a.length = b.length → listLexLe a b = true →
    listLexLe (a ++ s) (b ++ s) = true := by
  intro a
  induction a with
  | nil =>
    intro b s hlen _
    have : b = [] := by
      cases b with
      | nil => rfl
      | cons y ys => simp at hlen
    subst this
    exact listLexLe_refl s
  | cons x xs ih =>
    intro b s hlen h
    cases b with
    | nil => simp at hlen
    | cons y ys =>
      simp only [List.length_cons] at hlen
      simp only [listLexLe, List.cons_append] at h ⊢
      rcases lt_trichotomy x y with hxy | hxy | hxy
      · rw [if_pos hxy]
      · subst hxy
        rw [if_neg (lt_irrefl x), if_neg (lt_irrefl x)] at h ⊢
        exact ih ys s (by omega) h
      · rw [if_neg (lt_asymm hxy), if_pos hxy] at h; simp at h

/-- Monotonicity of the fixed-width rendering: a smaller number renders to
a lexicographically smaller-or-equal digit string. -/
theorem natDigits_le : ∀ {w m n : Nat}, m < 10 ^ w → n < 10 ^ w → m ≤ n →
    listLexLe (natDigits w m) (natDigits w n) = true := by
  intro w
  induction w with
  | zero => intro m n _ _ _; rfl
  | succ w ih =>
    intro m n hm hn hle
    have hpow : (0 : Nat) < 10 ^ w := pow_pos (by norm_num) w
    have hdm : m / 10 ^ w < 10 := by
      apply Nat.div_lt_of_lt_mul
      calc m < 10 ^ (w + 1) := hm
        _ = 10 ^ w * 10 := by rw [pow_succ]
    have hdn : n / 10 ^ w < 10 := by
      apply Nat.div_lt_of_lt_mul
      calc n < 10 ^ (w + 1) := hn
        _ = 10 ^ w * 10 := by rw [pow_succ]
    simp only [natDigits, listLexLe]
    rcases Nat.lt_or_ge (m / 10 ^ w) (n / 10 ^ w) with hd | hd
    · rw [if_pos ((digitChar_lt_iff hdm hdn).mpr hd)]
    · have hde : m / 10 ^ w = n / 10 ^ w :=
        le_antisymm (Nat.div_le_div_right hle) hd
      have h1 := Nat.div_add_mod m (10 ^ w)
      have h2 := Nat.div_add_mod n (10 ^ w)
      rw [← hde] at h2
      rw [hde, if_neg (lt_irrefl _), if_neg (lt_irrefl _)]
      exact ih (Nat.mod_lt _ hpow) (Nat.mod_lt _ hpow) (by omega)

/-- The character data of a literal `String.mk`. -/
theorem stringMk_data (l : List Char) : (String.mk l).data = l := rfl

/-- Equal character data means equal strings. -/
theorem string_eq_of_data_eq : ∀ {a b : String}, a.data = b.data → a = b := by
  intro a b h
  cases a
  cases b
  exact congrArg String.mk h

/-- Within the 14-digit range, snapshot names are ordered exactly as their
timestamps. -/
theorem snapshotName_le {t₁ t₂ : Nat} (h1 : t₁ < 10 ^ 14)
    (h2 : t₂ < 10 ^ 14) (hle : t₁ ≤ t₂) :
    strLe (snapshotName t₁) (snapshotName t₂) = true := by
  simp only [strLe, snapshotName, timestampStr, String.data_append,
    stringMk_data, List.append_assoc]
  rw [listLexLe_append_left]
  exact listLexLe_append_right _ _ _
    (by rw [natDigits_length, natDigits_length]) (natDigits_le h1 h2 hle)

/-- In a list sorted by the Python string order, every element compares at
most the last one. -/
theorem sorted_le_getLast? :
    ∀ {l : List String}, l.Pairwise (fun a b => strLe a b = true) →
      ∀ {x y : String}, x ∈ l → l.getLast? = some y → strLe x y = true := by
  intro l
  induction l with
  | nil => intro _ x y hx; cases hx
  | cons a t ih =>
    intro hs x y hx hy
    cases t with
    | nil =>
      simp only [List.mem_singleton] at hx
      simp only [List.getLast?_singleton, Option.some.injEq] at hy
      subst hx; subst hy
      exact listLexLe_refl _
    | cons b t' =>
      rw [List.getLast?_cons_cons] at hy
      rcases List.mem_cons.mp hx with rfl | hx'
      · have hymem : y ∈ b :: t' := List.mem_of_getLast?_eq_some hy
        exact (List.pairwise_cons.mp hs).1 y hymem
      · exact ih (List.pairwise_cons.mp hs).2 hx' hy

/-- C5: over a non-empty set of snapshot identifiers following the naming
convention `search_<YYYYMMDDHHMMSS>.json`, `sorted(files)[-1]` returns the
lexicographically maximal identifier (every stored identifier compares at
most it in Python's code-point string order), and that identifier is the
one carrying the maximal — most recent — timestamp. -/
theorem latestFile_is_latest (tss : List Nat) (m : Nat) (hm : m ∈ tss)
    (hmax : ∀ t ∈ tss, t ≤ m) (hbound : ∀ t ∈ tss, t < 10 ^ 14) :
    latestFile (tss.map snapshotName) = some (snapshotName m) ∧
    ∀ f ∈ tss.map snapshotName, strLe f (snapshotName m) = true := by
  have htrans : ∀ (a b c : String), strLe a b → strLe b c → strLe a c :=
    fun a b c h1 h2 => listLexLe_trans _ _ _ h1 h2
  have htotal : ∀ (a b : String), strLe a b || strLe b a := by
    intro a b
    rcases listLexLe_total a.data b.data with h | h <;> simp [strLe, h]
  have hperm := List.mergeSort_perm (tss.map snapshotName)
    (fun a b => strLe a b)
  have hsorted := List.sorted_mergeSort
    htrans htotal (tss.map snapshotName)
  have hmem_m : snapshotName m ∈ tss.map snapshotName :=
    List.mem_map_of_mem snapshotName hm
  have hsne : (tss.map snapshotName).mergeSort (fun a b => strLe a b) ≠ [] :=
    List.ne_nil_of_mem (hperm.mem_iff.mpr hmem_m)
  obtain ⟨r, hr⟩ : ∃ r,
      ((tss.map snapshotName).mergeSort
        (fun a b => strLe a b)).getLast? = some r := by
    cases hl : ((tss.map snapshotName).mergeSort
        (fun a b => strLe a b)).getLast? with
    | none => exact absurd (List.getLast?_eq_none_iff.mp hl) hsne
    | some r => exact ⟨r, rfl⟩
  have hrmem : r ∈ tss.map snapshotName :=
    hperm.mem_iff.mp (List.mem_of_getLast?_eq_some hr)
  obtain ⟨tr, htr, hreq⟩ := List.mem_map.mp hrmem
  have hub : ∀ x ∈ tss.map snapshotName, strLe x r = true := by
    intro x hx
    exact sorted_le_getLast? hsorted (hperm.mem_iff.mpr hx) hr
  have hle1 : strLe r (snapshotName m) = true := by
    rw [← hreq]
    exact snapshotName_le (hbound tr htr) (hbound m hm) (hmax tr htr)
  have hle2 : strLe (snapshotName m) r = true := hub _ hmem_m
  have hre : r = snapshotName m :=
    string_eq_of_data_eq (listLexLe_antisymm _ _ hle1 hle2)
  constructor
  · show ((tss.map snapshotName).mergeSort
      (fun a b => strLe a b)).getLast? = some (snapshotName m)
    rw [hr, hre]
  · intro f hf
    exact hre ▸ hub f hf

/-- Witness for C5 at the claim's example: of the two stored identifiers,
the later one is returned. -/
theorem latestFile_is_latest_witness :
    latestFile ["search_20250101010101.json", "search_20250601020202.json"]
      = some "search_20250601020202.json" := by
  have h := latestFile_is_latest [20250101010101, 20250601020202]
    20250601020202 (by simp) (by decide) (by decide)
  have hmap : [20250101010101, 20250601020202].map snapshotName =
      ["search_20250101010101.json", "search_20250601020202.json"] := by
    decide
  have he : snapshotName 20250601020202 = "search_20250601020202.json" := by
    decide
  rw [hmap, he] at h
  exact h.1

/-- Counterexample for C9: two distinct runs — same output directory and
same start second, different asset lists — map to the same destination
root, so distinct runs can collide. -/
theorem destRoot_collision :
    (⟨".", 20250101120000, []⟩ : DownloadRun) ≠
      ⟨".", 20250101120000, [⟨"p", "u"⟩]⟩ ∧
    destRoot ⟨".", 20250101120000, []⟩ =
      destRoot ⟨".", 20250101120000, [⟨"p", "u"⟩]⟩ := by
  constructor
  · decide
  · rfl

/-- C9 (amended): each run's destination root is
`output_dir/artifacts_<YYYYMMDDHHMMSS start timestamp>`; two runs with
distinct start timestamps never collide.  (Two runs started within the
same second and with the same output directory share the root, and
`exist_ok=True` lets the second silently reuse it.) -/
theorem destRoot_fresh (r₁ r₂ : DownloadRun)
    (h1 : r₁.timestamp < 10 ^ 14) (h2 : r₂.timestamp < 10 ^ 14)
    (hts : r₁.timestamp ≠ r₂.timestamp) :
    destRoot r₁ ≠ destRoot r₂ := by
  intro he
  apply hts
  have hd := congrArg String.data he
  simp only [destRoot, String.data_append, timestampStr, stringMk_data] at hd
  have hlen : (natDigits 14 r₁.timestamp).length =
      (natDigits 14 r₂.timestamp).length := by
    rw [natDigits_length, natDigits_length]
  exact natDigits_inj h1 h2 (List.append_inj' hd hlen).2

/-- Witness for C9's amended theorem: two runs one second apart get
distinct roots. -/
theorem destRoot_fresh_witness :
    destRoot ⟨".", 20250101120000, []⟩ ≠ destRoot ⟨".", 20250101120001, []⟩ :=
  destRoot_fresh ⟨".", 20250101120000, []⟩ ⟨".", 20250101120001, []⟩
    (by decide) (by decide) (by decide)

end NexusCLI
